import Mathlib

/-!
Verification of the PatchScope intervention engine, sweep generator and
result-classification pipeline.  Python functions from the repository are
shallowly embedded as executable Lean definitions: tensors become nested
lists, in-place tensor mutation becomes pure rewriting, exceptions become
Option results, and the hook registry becomes an explicit event trace.
-/

-- ### String helpers (model of Python str.lower / substring / strip)

/-- Model of Python str.lower, mapping each character to lower case. -/
def strLower (s : String) : String := String.mk (s.data.map Char.toLower)

/-- Model of Python str.strip with no arguments: remove leading and trailing
whitespace characters. -/
def strStrip (s : String) : String :=
  String.mk (((s.data.dropWhile Char.isWhitespace).reverse.dropWhile
    Char.isWhitespace).reverse)

/-- Model of Python slicing s[n:] on strings, dropping the first n code
points. -/
def strDrop (s : String) (n : Nat) : String := String.mk (s.data.drop n)

/-- Char-list version of: the first list is an initial segment of the second. -/
def startsWithChars : List Char → List Char → Bool
  | [], _ => true
  | _ :: _, [] => false
  | a :: as, b :: bs => a == b && startsWithChars as bs

/-- Char-list version of Python substring containment (needle occurs contiguously). -/
def containsChars (needle : List Char) : List Char → Bool
  | [] => startsWithChars needle []
  | c :: t => startsWithChars needle (c :: t) || containsChars needle t

/-- Model of the Python expression needle in haystack on strings. -/
def strContains (haystack needle : String) : Bool :=
  containsChars needle.data haystack.data

-- ### Tensor model

/-- A hidden vector (one token position of one batch row). -/
abbrev Vec := List Int

/-- A hidden-state tensor of shape [batch, seq, hidden], as batch rows of token vectors. -/
abbrev Hidden := List (List Vec)

/-- Model of hidden_states.shape[1], the sequence length (length of batch row 0). -/
def shape1 (hs : Hidden) : Nat := (hs.headD []).length

/-- Model of the in-place write hidden_states[0, pos, :] = v. -/
def setAt (hs : Hidden) (pos : Nat) (v : Vec) : Hidden :=
  match hs with
  | [] => []
  | r :: rs => r.set pos v :: rs

/-- A forward-hook output: either a bare tensor or a tuple whose first
component is the tensor and whose remaining components are opaque payload. -/
inductive LayerOutput where
  | tensor (hs : Hidden)
  | tuple (hs : Hidden) (rest : List Vec)
deriving DecidableEq

/-- The hidden-state tensor of a layer output (output[0] for tuples). -/
def hiddenOf : LayerOutput → Hidden
  | .tensor hs => hs
  | .tuple hs _ => hs

/-- Rebuild the output in its original format, model of the return branch
(hidden_states,) + output[1:] versus bare hidden_states. -/
def rebuild : LayerOutput → Hidden → LayerOutput
  | .tensor _, hs => .tensor hs
  | .tuple _ rest, hs => .tuple hs rest

/-- Payload components after the tensor (empty for a bare tensor). -/
def restOf : LayerOutput → List Vec
  | .tensor _ => []
  | .tuple _ rest => rest

/-- Whether the output is a tuple (versus a bare tensor). -/
def isTuple : LayerOutput → Bool
  | .tensor _ => false
  | .tuple _ _ => true

-- ### The substitution callback (patchscope_core.py, patching_hook)

/-- Embedding of patching_hook from src/patchscope_core.py lines 103-124.
State patch_applied is passed explicitly (Python closes over a nonlocal);
the in-place tensor write becomes a pure rewrite returned in the output. -/
def patching_hook (source_repr : Vec) (patch_position : Nat)
    (patch_applied : Bool) (output : LayerOutput) : Bool × LayerOutput :=
  let hidden_states := hiddenOf output
  if patch_position < shape1 hidden_states ∧ patch_applied = false then
    (true, rebuild output (setAt hidden_states patch_position source_repr))
  else
    (patch_applied, rebuild output hidden_states)

/-- Fold of patching_hook over a sequence of hook invocations during one
generate call, returning the final flag and the returned outputs. -/
def hookRun (source_repr : Vec) (patch_position : Nat) :
    Bool → List LayerOutput → Bool × List LayerOutput
  | st, [] => (st, [])
  | st, o :: os =>
    let p := patching_hook source_repr patch_position st o
    let r := hookRun source_repr patch_position p.1 os
    (r.1, p.2 :: r.2)

/-- Per-invocation indicator of whether the substitution write executed
(the flag transitioned from false to true at this invocation). -/
def hookFiredFlags (source_repr : Vec) (patch_position : Nat) :
    Bool → List LayerOutput → List Bool
  | _, [] => []
  | st, o :: os =>
    let st2 := (patching_hook source_repr patch_position st o).1
    (st2 && !st) :: hookFiredFlags source_repr patch_position st2 os

-- ### Marker location (patchscope_core.py, find_patch_position)

/-- Embedding of the token test in find_patch_position lines 62-63:
token.lower().strip() equals the lowered marker, or the token is one of the
plain / leading-space / BPE-prefix / sentencepiece-prefix variants. -/
def tokenMatchesMarker (marker token : String) : Bool :=
  strStrip (strLower token) == strLower marker ||
  token == marker ||
  token == (" " ++ marker) ||
  token == ("Ġ" ++ marker) ||
  token == ("▁" ++ marker)

/-- Embedding of find_patch_position (lines 45-66): index of the first token
matching the marker, or none. -/
def find_patch_position (tokens : List String) (marker : String) : Option Nat :=
  tokens.findIdx? (tokenMatchesMarker marker)

-- ### Python sequence indexing

/-- Model of Python sequence indexing xs[i]: non-negative indices are direct,
negative indices count from the end, and out-of-range raises (none). -/
def pyGet {α : Type} (xs : List α) (i : Int) : Option α :=
  let j : Int := if i < 0 then i + xs.length else i
  if h : 0 ≤ j ∧ j < (xs.length : Int) then
    some (xs.get ⟨j.toNat, by omega⟩)
  else
    none

-- ### run_single_patch (patchscope_core.py lines 68-170)

/-- Abstraction of the model, tokenizer and torch environment one call of
run_single_patch interacts with.  srcStates models outputs.hidden_states of
the source forward pass (one last-token vector per captured state, index 0
being the embedding state); genResult is the decoded text of the generate
call, or none when generate raises; hookInvocations are the layer outputs
the registered hook observes during generate. -/
structure Env where
  totalLayers : Nat
  srcStates : List Vec
  sourceLastToken : String
  targetTokens : List String
  targetPrompt : String
  genResult : Option String
  hookInvocations : List LayerOutput

/-- Embedding of extract_representation (lines 19-43): the captured state at
Python index layer_idx + 1, plus the decoded last source token.  none models
the IndexError a too-large index raises. -/
def extract_representation (env : Env) (layer_idx : Int) : Option (Vec × String) :=
  (pyGet env.srcStates (layer_idx + 1)).map (fun h => (h, env.sourceLastToken))

/-- Hook-registry events produced by one call of run_single_patch. -/
inductive Event where
  | registerHook
  | removeHook
deriving DecidableEq

/-- Embedding of the result dict built by run_single_patch (lines 152-163). -/
structure PatchResult where
  extract_layer : Int
  inject_layer : Int
  patch_applied : Bool
  generated_text : String
  new_tokens : String
  source_token : String
  patch_position : Nat
deriving DecidableEq

/-- Embedding of run_single_patch (lines 68-170).  The returned event list is
the trace of hook registration and removal; the Option result models the
return value, with none for every caught-exception or early-return path:
extraction IndexError, marker not found, inject bounds check, layer-list
IndexError, and exceptions inside generate (whose finally still removes the
hook).  patch_applied is the final value of the nonlocal flag after the hook
ran over the invocations generate produced; new_tokens is the character
suffix of the decoded text beyond len(target_prompt), stripped. -/
def run_single_patch (env : Env) (extract_layer inject_layer : Int) :
    List Event × Option PatchResult :=
  match extract_representation env extract_layer with
  | none => ([], none)
  | some sr =>
    match find_patch_position env.targetTokens ("?") with
    | none => ([], none)
    | some patch_position =>
      if (env.totalLayers : Int) ≤ inject_layer then ([], none)
      else
        match pyGet (List.range env.totalLayers) inject_layer with
        | none => ([], none)
        | some _ =>
          match env.genResult with
          | none => ([Event.registerHook, Event.removeHook], none)
          | some result_text =>
            let patch_applied :=
              (hookRun sr.1 patch_position false env.hookInvocations).1
            let new_text :=
              if env.targetPrompt.length < result_text.length then
                strStrip (strDrop result_text env.targetPrompt.length)
              else ""
            ([Event.registerHook, Event.removeHook],
             some { extract_layer := extract_layer,
                    inject_layer := inject_layer,
                    patch_applied := patch_applied,
                    generated_text := result_text,
                    new_tokens := new_text,
                    source_token := sr.2,
                    patch_position := patch_position })

-- ### Result collection (experiment_runner.py / patchscope_core.py loops)

/-- Observable per-sweep state of the experiment loops: the result collection
and the all-request counter (experiment_count in run_layer_range_experiment,
the loop index elsewhere).  No other per-request state exists. -/
structure RunnerState where
  results : List PatchResult
  experiment_count : Nat
deriving DecidableEq

/-- One iteration of the experiment loop around run_single_patch: count every
request, and append the result only when one was produced. -/
def runnerStep (s : RunnerState) (r : Option PatchResult) : RunnerState :=
  { results := match r with
      | some x => s.results ++ [x]
      | none => s.results,
    experiment_count := s.experiment_count + 1 }

-- ### Result classifier (analysis.py, analyze_results; config.py, ANALYSIS_CONFIG)

/-- ANALYSIS_CONFIG match_thresholds strong_match (config.py line 211). -/
def strong_match_threshold : Nat := 2

/-- ANALYSIS_CONFIG match_thresholds partial_match (config.py line 212);
the trailing token of the Python key is shortened to part here. -/
def part_match_threshold : Nat := 1

/-- Model of sum(1 for keyword in expected_keywords if keyword in new_text_lower)
at analysis.py line 53: the keywords occurring as substrings of the text. -/
def countMatches (keywords : List String) (text : String) : Nat :=
  (keywords.filter (fun k => strContains text k)).length

/-- The four classification buckets of analyze_results (part stands for the
partial-match bucket). -/
inductive Bucket where
  | strong
  | part
  | weak
  | failed
deriving DecidableEq

/-- Classification rule for one result as the specification states it:
patch_applied false goes to failed, otherwise the bucket is chosen from the
count of expected keywords occurring in the lowercased generated suffix. -/
def bucketOf (keywords : List String) (r : PatchResult) : Bucket :=
  if r.patch_applied = false then Bucket.failed
  else
    let m := countMatches keywords (strLower r.new_tokens)
    if strong_match_threshold ≤ m then Bucket.strong
    else if part_match_threshold ≤ m then Bucket.part
    else Bucket.weak

/-- The per-bucket lists analyze_results builds (analysis.py lines 38-43);
part_matches embeds the partial-match list. -/
structure Analysis where
  strong_matches : List PatchResult
  part_matches : List PatchResult
  weak_matches : List PatchResult
  failed_patches : List PatchResult
deriving DecidableEq

/-- Embedding of the classification loop of analyze_results (analysis.py
lines 45-61): results are appended to their buckets in input order. -/
def analyze_results (keywords : List String) : List PatchResult → Analysis
  | [] => ⟨[], [], [], []⟩
  | r :: rest =>
    let a := analyze_results keywords rest
    if r.patch_applied = false then
      { a with failed_patches := r :: a.failed_patches }
    else
      let m := countMatches keywords (strLower r.new_tokens)
      if strong_match_threshold ≤ m then
        { a with strong_matches := r :: a.strong_matches }
      else if part_match_threshold ≤ m then
        { a with part_matches := r :: a.part_matches }
      else
        { a with weak_matches := r :: a.weak_matches }

-- ### Stable sorting machinery (model of Python dict order and stable sorted)

/-- Insert an integer into an ascending-sorted list. -/
def insertAsc (x : Int) : List Int → List Int
  | [] => [x]
  | y :: ys => if x ≤ y then x :: y :: ys else y :: insertAsc x ys

/-- Ascending insertion sort on integers. -/
def sortAsc (l : List Int) : List Int := l.foldr insertAsc []

/-- Collapse adjacent duplicates of a sorted list. -/
def dedupSorted : List Int → List Int
  | [] => []
  | [x] => [x]
  | x :: y :: t =>
    if x == y then dedupSorted (y :: t) else x :: dedupSorted (y :: t)

/-- The distinct key values of a list, in ascending order. -/
def sortKeys (l : List Int) : List Int := dedupSorted (sortAsc l)

/-- Stable sort of a list by an integer key, modelling Python sorted with a
key function: elements are grouped by ascending key, and elements with equal
keys keep their original relative order (each group is a filter of the
original list). -/
def stableSortByKey {α : Type} (key : α → Int) (l : List α) : List α :=
  ((sortKeys (l.map key)).map (fun k => l.filter (fun x => key x == k))).flatten

/-- Occurrence counting in first-seen order, modelling a Python defaultdict
of counts: the keys appear in the order of their first occurrence. -/
def tallyInsert {α : Type} [DecidableEq α] :
    List (α × Nat) → α → List (α × Nat)
  | [], x => [(x, 1)]
  | (y, c) :: rest, x =>
    if x = y then (y, c + 1) :: rest else (y, c) :: tallyInsert rest x

/-- Occurrence counts of a list in first-seen key order. -/
def tally {α : Type} [DecidableEq α] (xs : List α) : List (α × Nat) :=
  xs.foldl tallyInsert []

/-- Model of Python min over a list (none for the empty list). -/
def listMin : List Int → Option Int
  | [] => none
  | x :: t =>
    match listMin t with
    | none => some x
    | some m => some (min x m)

/-- Model of Python max over a list (none for the empty list). -/
def listMax : List Int → Option Int
  | [] => none
  | x :: t =>
    match listMax t with
    | none => some x
    | some m => some (max x m)

-- ### Hotspot aggregator (analysis.py, find_knowledge_hotspots)

/-- The hotspot dictionary built at analysis.py lines 151-157. -/
structure HotspotData where
  best_extract_layers : List (Int × Nat)
  best_inject_layers : List (Int × Nat)
  best_layer_pairs : List ((Int × Int) × Nat)
  extract_range : Option (Int × Int)
  inject_range : Option (Int × Int)
deriving DecidableEq

/-- Embedding of find_knowledge_hotspots (analysis.py lines 119-159).  none
models the explicit empty-state return (the message dictionary) for an empty
strong bucket.  Python sorted with reverse=True on the count is stable, so
it is modelled by stableSortByKey on the negated count. -/
def find_knowledge_hotspots (analysis : Analysis) : Option HotspotData :=
  match analysis.strong_matches with
  | [] => none
  | strong =>
    let extract_layers := strong.map (fun r => r.extract_layer)
    let inject_layers := strong.map (fun r => r.inject_layer)
    let extract_counts := tally extract_layers
    let inject_counts := tally inject_layers
    let pair_counts := tally (strong.map (fun r => (r.extract_layer, r.inject_layer)))
    some
      { best_extract_layers :=
          (stableSortByKey (fun x => -(x.2 : Int)) extract_counts).take 5,
        best_inject_layers :=
          (stableSortByKey (fun x => -(x.2 : Int)) inject_counts).take 5,
        best_layer_pairs :=
          (stableSortByKey (fun x => -(x.2 : Int)) pair_counts).take 10,
        extract_range :=
          match listMin extract_layers, listMax extract_layers with
          | some a, some b => some (a, b)
          | _, _ => none,
        inject_range :=
          match listMin inject_layers, listMax inject_layers with
          | some a, some b => some (a, b)
          | _, _ => none }

-- ### Diverse subsampling (experiment_runner.py lines 471-485)

/-- Embedding of the private diverse-combination selector (the Python name
carries a leading underscore): sort the pairs by the extract + inject sum
(list.sort with a key is stable), then pick index int(i * (len / max_count))
for each i below max_count, keeping only in-range indices.  The float index
arithmetic is modelled exactly by rational arithmetic, whose floor is the
natural-number division below. -/
def select_diverse_combinations (combinations : List (Int × Int))
    (max_count : Nat) : List (Int × Int) :=
  let sorted := stableSortByKey (fun p => p.1 + p.2) combinations
  (List.range max_count).filterMap
    (fun i => sorted.get? ((i * sorted.length) / max_count))

-- ### Concrete data used by scenario theorems and witnesses

/-- A concrete two-invocation trace: the first invocation carries a two-token
sequence, so the patch fires there and the second invocation is a no-op. -/
def outsW : List LayerOutput :=
  [LayerOutput.tensor [[[2], [3]]], LayerOutput.tuple [[[4], [5]]] [[9]]]

/-- A concrete well-formed environment: a 2-layer model (3 captured states),
a target prompt of 3 characters whose second token is the marker, a decoded
generation result, and one hook invocation with a 2-token sequence. -/
def envOK : Env :=
  { totalLayers := 2,
    srcStates := [[0], [1], [2]],
    sourceLastToken := "w",
    targetTokens := ["a", "?"],
    targetPrompt := "a ?",
    genResult := some ("a ? x"),
    hookInvocations := [LayerOutput.tensor [[[5], [6]]]] }

/-- The environment in which the generate call raises an exception. -/
def envGenFail : Env := { envOK with genResult := none }

/-- The environment whose target prompt contains no marker token. -/
def envNoMarker : Env := { envOK with targetTokens := ["a", "b"] }

/-- The scenario result of the specification: a successfully patched request
whose generated suffix is the first-president sentence. -/
def gwResult : PatchResult :=
  { extract_layer := 14,
    inject_layer := 21,
    patch_applied := true,
    generated_text := "? is known for the first president of the United States",
    new_tokens := "the first president of the United States",
    source_token := "Washington",
    patch_position := 0 }

/-- The concrete result produced by run_single_patch on envOK. -/
def rOK : PatchResult :=
  { extract_layer := 0,
    inject_layer := 0,
    patch_applied := true,
    generated_text := "a ? x",
    new_tokens := "x",
    source_token := "w",
    patch_position := 1 }

/-- A strong-match result at layer pair (14, 21). -/
def s1421 : PatchResult :=
  { extract_layer := 14,
    inject_layer := 21,
    patch_applied := true,
    generated_text := "g",
    new_tokens := "n",
    source_token := "s",
    patch_position := 0 }

/-- A strong-match result at layer pair (7, 21). -/
def s721 : PatchResult := { s1421 with extract_layer := 7 }

/-- The scenario analysis: two strong results at (14, 21), one at (7, 21). -/
def scenarioAnalysis : Analysis := ⟨[s1421, s1421, s721], [], [], []⟩

/-- A tie scenario: one strong result each at (7, 21) and (14, 21), in that
first-seen order. -/
def tieAnalysis : Analysis := ⟨[s721, s1421], [], [], []⟩

-- ### Helper lemmas about the hook

theorem rebuild_hiddenOf (o : LayerOutput) : rebuild o (hiddenOf o) = o := by
  cases o <;> rfl

theorem patching_hook_fired (s : Vec) (p : Nat) (o : LayerOutput) :
    patching_hook s p true o = (true, o) := by
  simp [patching_hook, rebuild_hiddenOf]

theorem hookRun_fired (s : Vec) (p : Nat) (os : List LayerOutput) :
    hookRun s p true os = (true, os) := by
  induction os with
  | nil => rfl
  | cons o t ih => simp [hookRun, patching_hook_fired, ih]

theorem hookFiredFlags_fired (s : Vec) (p : Nat) (os : List LayerOutput) :
    hookFiredFlags s p true os = List.replicate os.length false := by
  induction os with
  | nil => rfl
  | cons o t ih => simp [hookFiredFlags, patching_hook_fired, ih, List.replicate]

theorem patching_hook_idle_of_short (s : Vec) (p : Nat) (o : LayerOutput)
    (h : ¬ p < shape1 (hiddenOf o)) :
    patching_hook s p false o = (false, o) := by
  simp [patching_hook, h, rebuild_hiddenOf]

theorem patching_hook_idle_fst_of_long (s : Vec) (p : Nat) (o : LayerOutput)
    (h : p < shape1 (hiddenOf o)) :
    (patching_hook s p false o).1 = true := by
  simp [patching_hook, h]

/-- C1.  At-most-once patching: over any sequence of substitution-callback
invocations of one guarded generate call, starting from an unfired flag, the
write executes exactly once when some invocation has sequence length above
the marker position (and never otherwise); the write happens at the first
such invocation; every invocation that does not write returns its layer
output unmodified, and once fired the callback is an identity. -/
theorem C1_at_most_once_patching (s : Vec) (p : Nat) (outs : List LayerOutput) :
    ((hookFiredFlags s p false outs).count true
      = if outs.any (fun o => decide (p < shape1 (hiddenOf o))) then 1 else 0)
    ∧ (∀ o, patching_hook s p true o = (true, o))
    ∧ (∀ i, (hookFiredFlags s p false outs).get? i = some true →
        outs.findIdx? (fun o => decide (p < shape1 (hiddenOf o))) = some i)
    ∧ (∀ i, (hookFiredFlags s p false outs).get? i = some false →
        (hookRun s p false outs).2.get? i = outs.get? i) := by
  refine ⟨?_, patching_hook_fired s p, ?_, ?_⟩
  · induction outs with
    | nil => simp [hookFiredFlags]
    | cons o t ih =>
      by_cases h : p < shape1 (hiddenOf o)
      · simp [hookFiredFlags, patching_hook_idle_fst_of_long s p o h,
          hookFiredFlags_fired, h, List.count_replicate]
      · simp [hookFiredFlags, patching_hook_idle_of_short s p o h, h, ih]
  · induction outs with
    | nil => intro i hi; simp [hookFiredFlags] at hi
    | cons o t ih =>
      intro i hi
      by_cases h : p < shape1 (hiddenOf o)
      · rw [hookFiredFlags] at hi
        simp only [patching_hook_idle_fst_of_long s p o h, Bool.not_false,
          Bool.and_self, hookFiredFlags_fired] at hi
        match i with
        | 0 => simp [List.findIdx?_cons, h]
        | j + 1 =>
          rw [List.get?_cons_succ] at hi
          rcases lt_or_ge j t.length with hj | hj
          · rw [List.get?_eq_get (by simpa using hj)] at hi
            simp [List.getElem_replicate] at hi
          · rw [List.get?_eq_none.mpr (by simpa using hj)] at hi
            exact absurd hi (by simp)
      · rw [hookFiredFlags] at hi
        have hfst : (patching_hook s p false o).1 = false := by
          simp [patching_hook_idle_of_short s p o h]
        simp only [hfst, Bool.false_and] at hi
        match i with
        | 0 => simp at hi
        | j + 1 =>
          rw [List.get?_cons_succ] at hi
          have := ih j hi
          simp [List.findIdx?_cons, h, List.findIdx?_succ, this]
  · induction outs with
    | nil => intro i hi; simp [hookFiredFlags] at hi
    | cons o t ih =>
      intro i hi
      by_cases h : p < shape1 (hiddenOf o)
      · rw [hookFiredFlags] at hi
        simp only [patching_hook_idle_fst_of_long s p o h, Bool.not_false,
          Bool.and_self, hookFiredFlags_fired] at hi
        match i with
        | 0 => simp at hi
        | j + 1 =>
          rw [hookRun]
          simp only [patching_hook_idle_fst_of_long s p o h, hookRun_fired]
          simp
      · rw [hookFiredFlags] at hi
        have hfst : (patching_hook s p false o).1 = false := by
          simp [patching_hook_idle_of_short s p o h]
        simp only [hfst, Bool.false_and] at hi
        rw [hookRun]
        simp only [patching_hook_idle_of_short s p o h]
        match i with
        | 0 => simp
        | j + 1 =>
          rw [List.get?_cons_succ] at hi
          simp only [List.get?_cons_succ]
          exact ih j hi

theorem C1_at_most_once_patching_witness :
    (hookFiredFlags [1] 1 false outsW).get? 1 = some false
    ∧ (hookRun [1] 1 false outsW).2.get? 1 = outsW.get? 1 :=
  ⟨by decide, (C1_at_most_once_patching [1] 1 outsW).2.2.2 1 (by decide)⟩

/-- C2.  Guaranteed teardown: on every exit path of run_single_patch the hook
registration and removal events balance, and whenever the substitution
callback was registered the full trace is registration followed by removal —
in particular removal also happens on the exception path of generate, so no
substitution is left armed for a later request. -/
theorem C2_guaranteed_teardown (env : Env) (extract_layer inject_layer : Int) :
    ((run_single_patch env extract_layer inject_layer).1.count Event.registerHook
      = (run_single_patch env extract_layer inject_layer).1.count Event.removeHook)
    ∧ (Event.registerHook ∈ (run_single_patch env extract_layer inject_layer).1 →
        (run_single_patch env extract_layer inject_layer).1
          = [Event.registerHook, Event.removeHook]) := by
  unfold run_single_patch
  cases hx : extract_representation env extract_layer with
  | none => simp
  | some sr =>
    cases hm : find_patch_position env.targetTokens ("?") with
    | none => simp
    | some pos =>
      by_cases hb : (env.totalLayers : Int) ≤ inject_layer
      · simp [hb]
      · cases hl : pyGet (List.range env.totalLayers) inject_layer with
        | none => simp [hb]
        | some k =>
          cases hg : env.genResult with
          | none => simp [hb]
          | some t => simp [hb]

theorem C2_guaranteed_teardown_witness :
    Event.registerHook ∈ (run_single_patch envOK 0 0).1
    ∧ (run_single_patch envOK 0 0).1 = [Event.registerHook, Event.removeHook] :=
  ⟨by decide, (C2_guaranteed_teardown envOK 0 0).2 (by decide)⟩

theorem pyGet_lt_length {α : Type} {xs : List α} {i : Int} {a : α}
    (h : pyGet xs i = some a) : i < (xs.length : Int) := by
  by_cases hi : i < 0
  · omega
  · unfold pyGet at h
    simp only [if_neg hi] at h
    split at h
    · rename_i hc
      exact hc.2
    · simp at h

/-- C3 counterexample.  The claim asserts every out-of-range inject layer —
in particular any negative one — is rejected with an error before the
substitution callback is armed.  In the code the only bounds check is
inject_layer against the layer count from above, so inject layer -1 passes
the check, Python negative indexing resolves layers[-1] to the last layer,
the hook is registered, and a non-error result is produced. -/
theorem C3_layer_bounds_counterexample :
    (-1 : Int) < 0
    ∧ (run_single_patch envOK 0 (-1)).2.isSome = true
    ∧ Event.registerHook ∈ (run_single_patch envOK 0 (-1)).1 :=
  ⟨by decide, by decide, by decide⟩

/-- C3 amended.  For a well-formed environment (one captured state per layer
plus the embedding state), every executed request that yields a non-error
result has extract_layer and inject_layer below total_layers, and a request
with inject_layer at or above total_layers is rejected before the callback
is armed (empty event trace, no result).  Negative layers are not rejected:
they resolve by Python end-relative indexing (see the counterexample). -/
theorem C3_layer_bounds_amended (env : Env) (extract_layer inject_layer : Int)
    (hwf : env.srcStates.length = env.totalLayers + 1) :
    (∀ r : PatchResult,
      (run_single_patch env extract_layer inject_layer).2 = some r →
        extract_layer < (env.totalLayers : Int)
        ∧ inject_layer < (env.totalLayers : Int))
    ∧ ((env.totalLayers : Int) ≤ inject_layer →
        run_single_patch env extract_layer inject_layer = ([], none)) := by
  constructor
  · intro r hr
    unfold run_single_patch at hr
    cases hx : extract_representation env extract_layer with
    | none => rw [hx] at hr; simp at hr
    | some sr =>
      rw [hx] at hr
      cases hm : find_patch_position env.targetTokens ("?") with
      | none => rw [hm] at hr; simp at hr
      | some pos =>
        rw [hm] at hr
        by_cases hb : (env.totalLayers : Int) ≤ inject_layer
        · simp [hb] at hr
        · refine ⟨?_, by omega⟩
          unfold extract_representation at hx
          cases hp : pyGet env.srcStates (extract_layer + 1) with
          | none => rw [hp] at hx; simp at hx
          | some v =>
            have hlt := pyGet_lt_length hp
            rw [hwf] at hlt
            omega
  · intro hb
    unfold run_single_patch
    cases hx : extract_representation env extract_layer with
    | none => rfl
    | some sr =>
      cases hm : find_patch_position env.targetTokens ("?") with
      | none => rfl
      | some pos => simp [hb]

theorem C3_layer_bounds_amended_witness :
    envOK.srcStates.length = envOK.totalLayers + 1
    ∧ run_single_patch envOK 0 5 = ([], none) :=
  ⟨by decide, (C3_layer_bounds_amended envOK 0 5 (by decide)).2 (by decide)⟩

/-- C4 counterexample.  The claim asserts a failure inside the guarded
generate call is recorded as a result with patch_applied false, present in
the result collection.  In the code run_single_patch catches the exception
and returns None, and every caller appends only non-None results, so the
failed request is absent from the collection. -/
theorem C4_execution_failure_counterexample :
    envGenFail.genResult = none
    ∧ (run_single_patch envGenFail 0 0).2 = none
    ∧ (runnerStep ⟨[], 0⟩ (run_single_patch envGenFail 0 0).2).results
        = ([] : List PatchResult) :=
  ⟨rfl, by decide, by decide⟩

/-- C4 amended.  A failure during the guarded generate call is not
propagated: run_single_patch returns no result (teardown still balanced,
the trace being empty or registration followed by removal), and the request
is absent from the result collection — indistinguishable from a skip, so it
never reaches the failed bucket. -/
theorem C4_execution_failure_amended (env : Env) (e i : Int)
    (hg : env.genResult = none) :
    (run_single_patch env e i).2 = none
    ∧ ((run_single_patch env e i).1 = []
        ∨ (run_single_patch env e i).1 = [Event.registerHook, Event.removeHook])
    ∧ (∀ s : RunnerState, (runnerStep s (run_single_patch env e i).2).results
        = s.results) := by
  have key : run_single_patch env e i = ([], none)
      ∨ run_single_patch env e i = ([Event.registerHook, Event.removeHook], none) := by
    unfold run_single_patch
    cases hx : extract_representation env e with
    | none => exact Or.inl rfl
    | some sr =>
      cases hm : find_patch_position env.targetTokens ("?") with
      | none => exact Or.inl rfl
      | some pos =>
        by_cases hb : (env.totalLayers : Int) ≤ i
        · left
          simp [hb]
        · cases hl : pyGet (List.range env.totalLayers) i with
          | none => left; simp [hb, hl]
          | some k => right; simp [hb, hl, hg]
  rcases key with h | h
  · exact ⟨by rw [h], Or.inl (by rw [h]), fun s => by rw [h]; rfl⟩
  · exact ⟨by rw [h], Or.inr (by rw [h]), fun s => by rw [h]; rfl⟩

theorem C4_execution_failure_amended_witness :
    envGenFail.genResult = none
    ∧ (runnerStep ⟨[], 0⟩ (run_single_patch envGenFail 0 0).2).results
        = ([] : List PatchResult) :=
  ⟨rfl, by
    have h := (C4_execution_failure_amended envGenFail 0 0 rfl).2.2 ⟨[], 0⟩
    simpa using h⟩

/-- C5 counterexample.  The claim asserts that on a marker-not-found skip a
separate skip count increments.  The code keeps no skip counter: the
complete observable runner state after a skipped request (no marker in the
target tokens) is identical to the state after an execution failure — only
the all-request counter moves, and it moves for every request alike, so
nothing in the state separately counts skips. -/
theorem C5_skip_count_counterexample :
    find_patch_position envNoMarker.targetTokens ("?") = none
    ∧ (run_single_patch envNoMarker 0 0).2 = none
    ∧ runnerStep ⟨[], 0⟩ (run_single_patch envNoMarker 0 0).2
        = runnerStep ⟨[], 0⟩ (run_single_patch envGenFail 0 0).2 :=
  ⟨by decide, by decide, by decide⟩

/-- C5 amended.  When the target prompt contains no marker token the request
is a recoverable skip: run_single_patch returns immediately with no events
and no PatchResult, so nothing is recorded as failed, nothing is retried,
and the request is absent from every classification bucket (the result
collection is unchanged, only the all-request counter increments).  No
separate skip count is maintained by the code. -/
theorem C5_marker_not_found_amended (env : Env) (e i : Int)
    (hm : find_patch_position env.targetTokens ("?") = none) :
    run_single_patch env e i = ([], none)
    ∧ (∀ s : RunnerState, runnerStep s (run_single_patch env e i).2
        = { results := s.results, experiment_count := s.experiment_count + 1 }) := by
  have key : run_single_patch env e i = ([], none) := by
    unfold run_single_patch
    cases hx : extract_representation env e with
    | none => rfl
    | some sr => rw [hm]
  exact ⟨key, fun s => by rw [key]; rfl⟩

theorem C5_marker_not_found_amended_witness :
    find_patch_position envNoMarker.targetTokens ("?") = none
    ∧ run_single_patch envNoMarker 3 7 = ([], none) :=
  ⟨by decide, (C5_marker_not_found_amended envNoMarker 3 7 (by decide)).1⟩

/-- C6.  Classifier bucketing: every result with patch_applied false lands in
the failed bucket, and otherwise the bucket is determined by the number of
expected keywords occurring as substrings of the lowercased generated
suffix — strong at two or more, partial at one, weak at zero (the loop of
analyze_results equals a filter by the per-result rule, in input order).
The George Washington scenario matches two keywords and buckets strong. -/
theorem C6_classifier_bucketing :
    (∀ (kws : List String) (results : List PatchResult),
      (analyze_results kws results).strong_matches
          = results.filter (fun r => bucketOf kws r == Bucket.strong)
      ∧ (analyze_results kws results).part_matches
          = results.filter (fun r => bucketOf kws r == Bucket.part)
      ∧ (analyze_results kws results).weak_matches
          = results.filter (fun r => bucketOf kws r == Bucket.weak)
      ∧ (analyze_results kws results).failed_patches
          = results.filter (fun r => bucketOf kws r == Bucket.failed))
    ∧ countMatches ["president", "united states", "washington"]
        (strLower ("the first president of the United States")) = 2
    ∧ bucketOf ["president", "united states", "washington"] gwResult = Bucket.strong
    ∧ (analyze_results ["president", "united states", "washington"]
        [gwResult]).strong_matches = [gwResult] := by
  refine ⟨?_, by decide, by decide, by decide⟩
  intro kws results
  induction results with
  | nil => exact ⟨rfl, rfl, rfl, rfl⟩
  | cons r rest ih =>
    obtain ⟨ih1, ih2, ih3, ih4⟩ := ih
    by_cases hp : r.patch_applied = false
    · have hb : bucketOf kws r = Bucket.failed := by simp [bucketOf, hp]
      refine ⟨?_, ?_, ?_, ?_⟩ <;>
        simp [analyze_results, hp, hb, List.filter_cons, ih1, ih2, ih3, ih4]
    · by_cases h2 : strong_match_threshold ≤ countMatches kws (strLower r.new_tokens)
      · have hb : bucketOf kws r = Bucket.strong := by simp [bucketOf, hp, h2]
        refine ⟨?_, ?_, ?_, ?_⟩ <;>
          simp [analyze_results, hp, h2, hb, List.filter_cons, ih1, ih2, ih3, ih4]
      · by_cases h3 : part_match_threshold ≤ countMatches kws (strLower r.new_tokens)
        · have hb : bucketOf kws r = Bucket.part := by simp [bucketOf, hp, h2, h3]
          refine ⟨?_, ?_, ?_, ?_⟩ <;>
            simp [analyze_results, hp, h2, h3, hb, List.filter_cons, ih1, ih2, ih3, ih4]
        · have hb : bucketOf kws r = Bucket.weak := by simp [bucketOf, hp, h2, h3]
          refine ⟨?_, ?_, ?_, ?_⟩ <;>
            simp [analyze_results, hp, h2, h3, hb, List.filter_cons, ih1, ih2, ih3, ih4]

theorem C6_classifier_bucketing_witness :
    (analyze_results ["president", "united states", "washington"]
        [gwResult]).strong_matches
      = [gwResult].filter
          (fun r => bucketOf ["president", "united states", "washington"] r
            == Bucket.strong) :=
  (C6_classifier_bucketing.1 ["president", "united states", "washington"]
    [gwResult]).1

/-- C7 counterexample.  The claim asserts new_tokens equals exactly the
suffix of generated_text beyond the target prompt length.  The code strips
the suffix: for prompt of length 3 and decoded text of length 5 the suffix
is a space followed by x, while new_tokens is x alone. -/
theorem C7_new_tokens_counterexample :
    ((run_single_patch envOK 0 0).2.map PatchResult.new_tokens) = some ("x")
    ∧ ((run_single_patch envOK 0 0).2.map
        (fun r => strDrop r.generated_text envOK.targetPrompt.length)) = some (" x")
    ∧ (("x" : String) == (" x")) = false :=
  ⟨by decide, by decide, by decide⟩

/-- C7 amended.  For every executed request that produces a result, the
new_tokens field equals the suffix of generated_text beyond the target
prompt length stripped of leading and trailing whitespace, and whenever the
generated text is not longer than the prompt, new_tokens is the empty
string (a valid result, not an error). -/
theorem C7_new_tokens_amended (env : Env) (e i : Int) (r : PatchResult)
    (hr : (run_single_patch env e i).2 = some r) :
    (env.targetPrompt.length < r.generated_text.length →
      r.new_tokens = strStrip (strDrop r.generated_text env.targetPrompt.length))
    ∧ (r.generated_text.length ≤ env.targetPrompt.length →
      r.new_tokens = "") := by
  unfold run_single_patch at hr
  cases hx : extract_representation env e with
  | none => simp [hx] at hr
  | some sr =>
    cases hm : find_patch_position env.targetTokens ("?") with
    | none => simp [hx, hm] at hr
    | some pos =>
      by_cases hb : (env.totalLayers : Int) ≤ i
      · simp [hx, hm, hb] at hr
      · cases hl : pyGet (List.range env.totalLayers) i with
        | none => simp [hx, hm, hb, hl] at hr
        | some k =>
          cases hg : env.genResult with
          | none => simp [hx, hm, hb, hl, hg] at hr
          | some result_text =>
            simp only [hx, hm, if_neg hb, hl, hg] at hr
            simp only [Option.some.injEq] at hr
            subst hr
            constructor
            · intro hlen
              simp [hlen]
            · intro hlen
              have hlen2 : result_text.length ≤ env.targetPrompt.length := by
                simpa using hlen
              have hn : ¬ env.targetPrompt.length < result_text.length := by omega
              simp [hn]

theorem C7_new_tokens_amended_witness :
    envOK.targetPrompt.length < rOK.generated_text.length
    ∧ rOK.new_tokens = strStrip (strDrop rOK.generated_text envOK.targetPrompt.length) :=
  ⟨by decide, (C7_new_tokens_amended envOK 0 0 rOK (by decide)).1 (by decide)⟩

theorem get?_set_ne {α : Type} :
    ∀ (l : List α) (i j : Nat) (v : α), i ≠ j →
      (l.set i v).get? j = l.get? j := by
  intro l
  induction l with
  | nil => intro i j v _; rfl
  | cons a t ih =>
    intro i j v hij
    match i, j with
    | 0, 0 => exact absurd rfl hij
    | 0, k + 1 => rfl
    | m + 1, 0 => rfl
    | m + 1, k + 1 =>
      simp only [List.set, List.get?_cons_succ]
      exact ih m k v (by omega)

theorem get?_set_self {α : Type} :
    ∀ (l : List α) (i : Nat) (v : α), i < l.length →
      (l.set i v).get? i = some v := by
  intro l
  induction l with
  | nil => intro i v h; simp at h
  | cons a t ih =>
    intro i v h
    match i with
    | 0 => rfl
    | m + 1 =>
      simp only [List.set, List.get?_cons_succ]
      exact ih m v (by simpa using h)

theorem isTuple_rebuild (o : LayerOutput) (h : Hidden) :
    isTuple (rebuild o h) = isTuple o := by
  cases o <;> rfl

theorem restOf_rebuild (o : LayerOutput) (h : Hidden) :
    restOf (rebuild o h) = restOf o := by
  cases o <;> rfl

theorem hiddenOf_rebuild (o : LayerOutput) (h : Hidden) :
    hiddenOf (rebuild o h) = h := by
  cases o <;> rfl

/-- C10.  Frame property of the substitution callback: whatever the state,
the callback preserves the tuple-versus-tensor shape of the layer output and
every payload component after the tensor; inside the tensor it preserves
every batch row other than row 0 and every token position of row 0 other
than the marker position; and when it fires (position in range, flag still
unfired) the marker position of row 0 holds exactly the source vector. -/
theorem C10_patch_frame_property (s : Vec) (p : Nat) (st : Bool) (o : LayerOutput) :
    isTuple (patching_hook s p st o).2 = isTuple o
    ∧ restOf (patching_hook s p st o).2 = restOf o
    ∧ (∀ b : Nat, b ≠ 0 →
        (hiddenOf (patching_hook s p st o).2).get? b = (hiddenOf o).get? b)
    ∧ (∀ j : Nat, j ≠ p →
        ((hiddenOf (patching_hook s p st o).2).headD []).get? j
          = ((hiddenOf o).headD []).get? j)
    ∧ (p < shape1 (hiddenOf o) ∧ st = false →
        ((hiddenOf (patching_hook s p st o).2).headD []).get? p = some s) := by
  by_cases hc : p < shape1 (hiddenOf o) ∧ st = false
  · have hh : (patching_hook s p st o).2 = rebuild o (setAt (hiddenOf o) p s) := by
      simp [patching_hook, hc]
    rw [hh, isTuple_rebuild, restOf_rebuild, hiddenOf_rebuild]
    refine ⟨rfl, rfl, ?_, ?_, ?_⟩
    · intro b hb
      cases hhs : hiddenOf o with
      | nil => rfl
      | cons r rs =>
        match b, hb with
        | k + 1, _ => rfl
    · intro j hj
      cases hhs : hiddenOf o with
      | nil => rfl
      | cons r rs =>
        simp only [setAt, List.headD]
        exact get?_set_ne r p j s (by omega)
    · intro _
      cases hhs : hiddenOf o with
      | nil =>
        rw [hhs] at hc
        simp [shape1] at hc
      | cons r rs =>
        simp only [setAt, List.headD]
        apply get?_set_self
        rw [hhs] at hc
        simpa [shape1] using hc.1
  · have hh : patching_hook s p st o = (st, o) := by
      simp only [patching_hook, if_neg hc]
      rw [rebuild_hiddenOf]
    rw [hh]
    exact ⟨rfl, rfl, fun b _ => rfl, fun j _ => rfl, fun h => absurd h hc⟩

theorem C10_patch_frame_property_witness :
    (0 < shape1 (hiddenOf (LayerOutput.tuple [[[7], [8]]] [[3]])) ∧ false = false)
    ∧ ((hiddenOf (patching_hook [9] 0 false
        (LayerOutput.tuple [[[7], [8]]] [[3]])).2).headD []).get? 0 = some [9] :=
  ⟨⟨by decide, rfl⟩,
    (C10_patch_frame_property [9] 0 false
      (LayerOutput.tuple [[[7], [8]]] [[3]])).2.2.2.2 ⟨by decide, rfl⟩⟩

-- ### Lemmas about the stable key-sort model

theorem mem_insertAsc {x a : Int} : ∀ {l : List Int},
    x ∈ insertAsc a l ↔ x = a ∨ x ∈ l := by
  intro l
  induction l with
  | nil => simp [insertAsc]
  | cons y ys ih =>
    by_cases h : a ≤ y
    · simp [insertAsc, h]
    · simp only [insertAsc, if_neg h, List.mem_cons, ih]
      tauto

theorem mem_sortAsc {x : Int} : ∀ {l : List Int}, x ∈ sortAsc l ↔ x ∈ l := by
  intro l
  induction l with
  | nil => simp [sortAsc]
  | cons y ys ih =>
    simp only [sortAsc, List.foldr] at ih ⊢
    rw [mem_insertAsc, ih, List.mem_cons]

theorem pairwise_insertAsc {a : Int} : ∀ {l : List Int},
    l.Pairwise (· ≤ ·) → (insertAsc a l).Pairwise (· ≤ ·) := by
  intro l
  induction l with
  | nil => intro _; simp [insertAsc]
  | cons y ys ih =>
    intro hp
    rcases List.pairwise_cons.mp hp with ⟨hy, hys⟩
    by_cases h : a ≤ y
    · rw [insertAsc, if_pos h]
      refine List.pairwise_cons.mpr ⟨?_, hp⟩
      intro b hb
      rcases List.mem_cons.mp hb with rfl | hb
      · exact h
      · exact le_trans h (hy b hb)
    · rw [insertAsc, if_neg h]
      refine List.pairwise_cons.mpr ⟨?_, ih hys⟩
      intro b hb
      rcases mem_insertAsc.mp hb with rfl | hb
      · omega
      · exact hy b hb

theorem pairwise_sortAsc : ∀ (l : List Int), (sortAsc l).Pairwise (· ≤ ·) := by
  intro l
  induction l with
  | nil => simp [sortAsc]
  | cons y ys ih => exact pairwise_insertAsc ih

theorem mem_dedupSorted {x : Int} : ∀ {l : List Int},
    x ∈ dedupSorted l ↔ x ∈ l := by
  intro l
  induction l using dedupSorted.induct with
  | case1 => simp [dedupSorted]
  | case2 a => simp [dedupSorted]
  | case3 a b t hab ih =>
    simp only [dedupSorted, if_pos hab, ih, List.mem_cons]
    have : a = b := by simpa using hab
    subst this
    tauto
  | case4 a b t hab ih =>
    simp only [dedupSorted, if_neg hab, List.mem_cons, ih]

theorem pairwise_lt_dedupSorted : ∀ {l : List Int},
    l.Pairwise (· ≤ ·) → (dedupSorted l).Pairwise (· < ·) := by
  intro l
  induction l using dedupSorted.induct with
  | case1 => intro _; simp [dedupSorted]
  | case2 a => intro _; simp [dedupSorted]
  | case3 a b t hab ih =>
    intro hp
    rw [dedupSorted, if_pos hab]
    exact ih (List.pairwise_cons.mp hp).2
  | case4 a b t hab ih =>
    intro hp
    rw [dedupSorted, if_neg hab]
    rcases List.pairwise_cons.mp hp with ⟨ha, ht⟩
    refine List.pairwise_cons.mpr ⟨?_, ih ht⟩
    intro c hc
    have hc2 : c ∈ b :: t := mem_dedupSorted.mp hc
    have hab2 : a ≠ b := by simpa using hab
    have hale : a ≤ c := ha c hc2
    rcases List.mem_cons.mp hc2 with rfl | hct
    · omega
    · have hbc : b ≤ c := (List.pairwise_cons.mp ht).1 c hct
      have hable : a ≤ b := ha b (List.mem_cons_self b t)
      omega

theorem sortKeys_nodup (l : List Int) : (sortKeys l).Pairwise (· < ·) :=
  pairwise_lt_dedupSorted (pairwise_sortAsc l)

theorem mem_sortKeys {x : Int} {l : List Int} : x ∈ sortKeys l ↔ x ∈ l := by
  rw [sortKeys, mem_dedupSorted, mem_sortAsc]

theorem blocks_perm {α : Type} (key : α → Int) :
    ∀ (ks : List Int) (l : List α), ks.Nodup → (∀ x ∈ l, key x ∈ ks) →
      ((ks.map (fun k => l.filter (fun x => key x == k))).flatten).Perm l := by
  intro ks
  induction ks with
  | nil =>
    intro l _ hcov
    have hl : l = [] := by
      cases l with
      | nil => rfl
      | cons a t => exact absurd (hcov a (List.mem_cons_self a t)) (by simp)
    subst hl
    simp
  | cons k ks ih =>
    intro l hnd hcov
    rcases List.nodup_cons.mp hnd with ⟨hk, hnd2⟩
    simp only [List.map_cons, List.flatten_cons]
    have hblocks : ∀ k2 ∈ ks,
        l.filter (fun x => key x == k2)
          = (l.filter (fun x => !(key x == k))).filter (fun x => key x == k2) := by
      intro k2 hk2
      rw [List.filter_filter]
      apply List.filter_congr
      intro x hx
      by_cases hxk : key x = k2
      · have hne : (key x == k) = false := by
          apply beq_eq_false_iff_ne.mpr
          intro hcon
          rw [hxk] at hcon
          exact hk (hcon ▸ hk2)
        simp [hxk, hne]
        intro hcon
        exact hk (hcon ▸ hk2)
      · simp [hxk]
    have hmap : ks.map (fun k2 => l.filter (fun x => key x == k2))
        = ks.map (fun k2 =>
            (l.filter (fun x => !(key x == k))).filter (fun x => key x == k2)) :=
      List.map_congr_left hblocks
    have hperm2 :
        ((ks.map (fun k2 => l.filter (fun x => key x == k2))).flatten).Perm
          (l.filter (fun x => !(key x == k))) := by
      rw [hmap]
      apply ih (l.filter (fun x => !(key x == k))) hnd2
      intro x hx
      have hxl : x ∈ l := List.mem_of_mem_filter hx
      have hxne := List.of_mem_filter hx
      rcases List.mem_cons.mp (hcov x hxl) with h | h
      · rw [h] at hxne
        simp at hxne
      · exact h
    exact List.Perm.trans (hperm2.append_left (l.filter (fun x => key x == k)))
      (List.filter_append_perm (fun x => key x == k) l)

theorem stableSortByKey_perm {α : Type} (key : α → Int) (l : List α) :
    (stableSortByKey key l).Perm l := by
  unfold stableSortByKey
  apply blocks_perm
  · exact (sortKeys_nodup (l.map key)).imp (fun h => ne_of_lt h)
  · intro x hx
    exact mem_sortKeys.mpr (List.mem_map_of_mem key hx)

theorem stableSortByKey_length {α : Type} (key : α → Int) (l : List α) :
    (stableSortByKey key l).length = l.length :=
  (stableSortByKey_perm key l).length_eq

theorem mem_stableSortByKey {α : Type} {key : α → Int} {l : List α} {x : α} :
    x ∈ stableSortByKey key l ↔ x ∈ l :=
  (stableSortByKey_perm key l).mem_iff

theorem blocks_pairwise {α : Type} (key : α → Int) :
    ∀ (ks : List Int) (l : List α), ks.Pairwise (· < ·) →
      ((ks.map (fun k => l.filter (fun x => key x == k))).flatten).Pairwise
        (fun a b => key a ≤ key b) := by
  intro ks
  induction ks with
  | nil => intro l _; simp
  | cons k ks ih =>
    intro l hp
    rcases List.pairwise_cons.mp hp with ⟨hk, hp2⟩
    simp only [List.map_cons, List.flatten_cons]
    rw [List.pairwise_append]
    refine ⟨?_, ih l hp2, ?_⟩
    · apply List.pairwise_of_forall_mem_list
      intro a ha b hb
      have ha2 : key a = k := by simpa using List.of_mem_filter ha
      have hb2 : key b = k := by simpa using List.of_mem_filter hb
      rw [ha2, hb2]
    · intro a ha b hb
      have ha2 : key a = k := by simpa using List.of_mem_filter ha
      rcases List.mem_flatten.mp hb with ⟨blk, hblk, hbblk⟩
      rcases List.mem_map.mp hblk with ⟨k2, hk2, rfl⟩
      have hb2 : key b = k2 := by simpa using List.of_mem_filter hbblk
      have : k < k2 := hk k2 hk2
      omega

theorem stableSortByKey_pairwise {α : Type} (key : α → Int) (l : List α) :
    (stableSortByKey key l).Pairwise (fun a b => key a ≤ key b) :=
  blocks_pairwise key (sortKeys (l.map key)) l (sortKeys_nodup (l.map key))

/-- C8.  Hotspot aggregation: the aggregator depends only on the strong
bucket; on an empty strong bucket it returns the explicit empty-state marker
rather than an error; otherwise it returns at most five extract layers, at
most five inject layers and at most ten pairs, each list ordered by
descending occurrence count (stable in first-seen order, as witnessed by the
tie scenario), together with the observed min and max of the extract and
inject layers.  The scenario with two results at (14, 21) and one at (7, 21)
puts (14, 21) first with count 2 and (7, 21) second with count 1. -/
theorem C8_hotspot_aggregation :
    (∀ a b : Analysis, a.strong_matches = b.strong_matches →
      find_knowledge_hotspots a = find_knowledge_hotspots b)
    ∧ (∀ a : Analysis, a.strong_matches = [] → find_knowledge_hotspots a = none)
    ∧ (∀ (a : Analysis) (d : HotspotData), find_knowledge_hotspots a = some d →
        d.best_extract_layers.length ≤ 5
        ∧ d.best_inject_layers.length ≤ 5
        ∧ d.best_layer_pairs.length ≤ 10
        ∧ d.best_extract_layers.Pairwise (fun x y => y.2 ≤ x.2)
        ∧ d.best_inject_layers.Pairwise (fun x y => y.2 ≤ x.2)
        ∧ d.best_layer_pairs.Pairwise (fun x y => y.2 ≤ x.2)
        ∧ d.extract_range
            = (match listMin (a.strong_matches.map (fun r => r.extract_layer)),
                listMax (a.strong_matches.map (fun r => r.extract_layer)) with
               | some x, some y => some (x, y)
               | _, _ => none)
        ∧ d.inject_range
            = (match listMin (a.strong_matches.map (fun r => r.inject_layer)),
                listMax (a.strong_matches.map (fun r => r.inject_layer)) with
               | some x, some y => some (x, y)
               | _, _ => none))
    ∧ (find_knowledge_hotspots scenarioAnalysis).map HotspotData.best_layer_pairs
        = some [((14, 21), 2), ((7, 21), 1)]
    ∧ (find_knowledge_hotspots tieAnalysis).map HotspotData.best_layer_pairs
        = some [((7, 21), 1), ((14, 21), 1)] := by
  refine ⟨?_, ?_, ?_, by decide, by decide⟩
  · intro a b h
    unfold find_knowledge_hotspots
    rw [h]
  · intro a h
    unfold find_knowledge_hotspots
    rw [h]
  · intro a d hd
    unfold find_knowledge_hotspots at hd
    cases hs : a.strong_matches with
    | nil => rw [hs] at hd; simp at hd
    | cons r t =>
      rw [hs] at hd
      simp only [Option.some.injEq] at hd
      subst hd
      refine ⟨?_, ?_, ?_, ?_, ?_, ?_, rfl, rfl⟩
      · simp [List.length_take]
      · simp [List.length_take]
      · simp [List.length_take]
      · exact List.Pairwise.sublist (List.take_sublist _ _)
          ((stableSortByKey_pairwise _ _).imp (fun h => by omega))
      · exact List.Pairwise.sublist (List.take_sublist _ _)
          ((stableSortByKey_pairwise _ _).imp (fun h => by omega))
      · exact List.Pairwise.sublist (List.take_sublist _ _)
          ((stableSortByKey_pairwise _ _).imp (fun h => by omega))

theorem C8_hotspot_aggregation_witness :
    find_knowledge_hotspots ⟨[], [], [], []⟩ = none :=
  C8_hotspot_aggregation.2.1 ⟨[], [], [], []⟩ rfl

theorem length_filterMap_of_forall_isSome {α β : Type} :
    ∀ (l : List α) (f : α → Option β), (∀ a ∈ l, (f a).isSome) →
      (l.filterMap f).length = l.length := by
  intro l f
  induction l with
  | nil => intro _; rfl
  | cons a t ih =>
    intro h
    have ha := h a (List.mem_cons_self a t)
    rcases Option.isSome_iff_exists.mp ha with ⟨b, hb⟩
    rw [List.filterMap_cons, hb]
    simp only [List.length_cons]
    rw [ih (fun x hx => h x (List.mem_cons_of_mem a hx))]

/-- C9 counterexample.  The claim asserts the subsampling output always has
exactly min(K, input size) pairs.  For an input of two pairs and cap five,
the index formula int(i * (2 / 5)) stays in range for every i below five, so
the code emits five elements (with repetitions) instead of two. -/
theorem C9_diverse_subsampling_counterexample :
    (select_diverse_combinations [((0 : Int), (0 : Int)), (1, 1)] 5).length = 5
    ∧ min 5 ([((0 : Int), (0 : Int)), (1, 1)].length) = 2
    ∧ (((5 : Nat) == 2) = false) :=
  ⟨by decide, by decide, by decide⟩

/-- C9 amended.  In the oversized case — the only one the sweep caller
invokes, guarding with len(combinations) > max_combinations — the selector
sorts the pairs by extract + inject sum and picks evenly spaced indices, and
for every positive cap K below the input size the output has exactly
min(K, input size) = K pairs, every one drawn from the input.  Without the
guard (input size at most K) the output instead repeats elements up to
length K. -/
theorem C9_diverse_subsampling_amended (l : List (Int × Int)) (K : Nat)
    (hK : 0 < K) (hlen : K < l.length) :
    (select_diverse_combinations l K).length = min K l.length
    ∧ (∀ x ∈ select_diverse_combinations l K, x ∈ l) := by
  have hmin : min K l.length = K := by omega
  have hslen : (stableSortByKey (fun p => p.1 + p.2) l).length = l.length :=
    stableSortByKey_length _ l
  constructor
  · rw [hmin]
    unfold select_diverse_combinations
    rw [length_filterMap_of_forall_isSome]
    · exact List.length_range K
    · intro i hi
      have hiK : i < K := List.mem_range.mp hi
      have hidx : i * (stableSortByKey (fun p => p.1 + p.2) l).length / K
          < (stableSortByKey (fun p => p.1 + p.2) l).length := by
        rw [hslen]
        have hpos : 0 < l.length := by omega
        rw [Nat.div_lt_iff_lt_mul hK]
        calc i * l.length < K * l.length :=
              Nat.mul_lt_mul_of_lt_of_le hiK (le_refl _) hpos
          _ = l.length * K := Nat.mul_comm K l.length
      rw [List.get?_eq_get hidx]
      rfl
  · intro x hx
    unfold select_diverse_combinations at hx
    rcases List.mem_filterMap.mp hx with ⟨i, _, hfi⟩
    exact mem_stableSortByKey.mp (List.get?_mem hfi)

theorem C9_diverse_subsampling_amended_witness :
    (0 < 2 ∧ 2 < [((0 : Int), (0 : Int)), (1, 1), (2, 2), (3, 3)].length)
    ∧ (select_diverse_combinations
        [((0 : Int), (0 : Int)), (1, 1), (2, 2), (3, 3)] 2).length
      = min 2 ([((0 : Int), (0 : Int)), (1, 1), (2, 2), (3, 3)].length) :=
  ⟨⟨by decide, by decide⟩,
    (C9_diverse_subsampling_amended
      [((0 : Int), (0 : Int)), (1, 1), (2, 2), (3, 3)] 2
      (by decide) (by decide)).1⟩
